import Mathlib

/-!
Verification of the natural-language-to-SQL pipeline of `src/app.py`
(GemAI-Ecommerce).

Modelling choices (shallow embedding):
* Python strings are modelled as `List Char`; `str.upper` is modelled as
  per-character `Char.toUpper` (ASCII uppercasing), `str.strip` as removal of
  leading and trailing whitespace characters, the `in` substring test and
  `str.startswith` as the executable functions `containsSub`/`startsWithL`.
* The two outbound model calls (`model.generate_content`) and the database
  are abstracted as parameters: an `Option (List Char)` response (`none`
  models the call raising an exception) and a function
  `List Char → Except (List Char) QueryResult`.
* The observable behaviour of a request (Streamlit displays, database
  contact, model invocations, history appends) is recorded as an explicit
  event trace of type `List Ev`, so that temporal claims ("the store is
  never contacted", "the Summarizer is never invoked") become statements
  about traces.
-/

namespace GemAI

/-- Python prefix test `s.startswith(pat)`, on character lists. -/
def startsWithL : List Char → List Char → Bool
  | [], _ => true
  | _ :: _, [] => false
  | p :: ps, c :: cs => if p = c then startsWithL ps cs else false

/-- Python substring test `pat in s`, on character lists. -/
def containsSub (pat : List Char) : List Char → Bool
  | [] => pat.isEmpty
  | c :: cs => startsWithL pat (c :: cs) || containsSub pat cs

theorem startsWithL_iff : ∀ (pat s : List Char),
    startsWithL pat s = true ↔ ∃ rest, s = pat ++ rest
  | [], s => by simp [startsWithL]
  | _ :: _, [] => by simp [startsWithL]
  | p :: ps, c :: cs => by
    simp only [startsWithL, List.cons_append, List.cons.injEq]
    by_cases hpc : p = c
    · subst hpc
      rw [if_pos rfl, startsWithL_iff ps cs]
      simp
    · rw [if_neg hpc]
      simp [Ne.symm hpc]

theorem containsSub_iff (pat : List Char) :
    ∀ s : List Char, containsSub pat s = true ↔ ∃ pre suf, s = pre ++ pat ++ suf := by
  intro s
  induction s with
  | nil =>
    constructor
    · intro h
      have hp : pat = [] := by simpa [containsSub, List.isEmpty_iff] using h
      exact ⟨[], [], by simp [hp]⟩
    · rintro ⟨pre, suf, hs⟩
      rcases List.append_eq_nil.mp hs.symm with ⟨h1, -⟩
      rcases List.append_eq_nil.mp h1 with ⟨-, h2⟩
      simp [containsSub, h2]
  | cons c cs ih =>
    simp only [containsSub, Bool.or_eq_true, startsWithL_iff, ih]
    constructor
    · rintro (⟨rest, hr⟩ | ⟨pre, suf, hs⟩)
      · exact ⟨[], rest, by simp [hr]⟩
      · exact ⟨c :: pre, suf, by simp [hs]⟩
    · rintro ⟨pre, suf, hs⟩
      cases pre with
      | nil => exact Or.inl ⟨suf, by simpa using hs⟩
      | cons p' pre' =>
        right
        injection hs with _ h2
        exact ⟨pre', suf, h2⟩

/-! ## The safety filter of `execute_sql_query` (src/app.py lines 194-200) -/

/-- The fixed list of mutating keywords, in the order of the Python list
`dangerous_keywords`. -/
def dangerousKeywords : List (List Char) :=
  ["DELETE", "UPDATE", "INSERT", "DROP", "ALTER",
   "TRUNCATE", "CREATE", "GRANT", "REVOKE"].map String.toList

/-- One iteration of the Python security check:
`f' {keyword} ' in query_upper or query_upper.startswith(keyword + ' ')`. -/
def keywordHit (up kw : List Char) : Bool :=
  containsSub (' ' :: (kw ++ [' '])) up || startsWithL (kw ++ [' ']) up

/-- The security-check loop at the start of `execute_sql_query`: uppercase the
query, then return the first dangerous keyword that hits (the keyword shown in
the blocking error message), or `none` when the query passes the filter. -/
def findDangerous (sql : List Char) : Option (List Char) :=
  dangerousKeywords.find? (fun kw => keywordHit (sql.map Char.toUpper) kw)

/-- Spec-side reading of "the keyword occurs as a standalone token": either
surrounded by spaces somewhere in the (uppercased) text, or the text starts
with the keyword followed by a space. -/
def StandaloneIn (kw up : List Char) : Prop :=
  (∃ pre suf, up = pre ++ (' ' :: (kw ++ [' '])) ++ suf) ∨ (∃ rest, up = (kw ++ [' ']) ++ rest)

theorem keywordHit_iff (up kw : List Char) :
    keywordHit up kw = true ↔ StandaloneIn kw up := by
  simp only [keywordHit, Bool.or_eq_true, containsSub_iff, startsWithL_iff, StandaloneIn]

/-- C1: for every SQL string whose uppercasing contains a mutating keyword as a
standalone token, the security check rejects the string and the keyword it
names also occurs standalone; when the standalone keyword is unique, the named
keyword is exactly that keyword. -/
theorem safety_filter_flags_standalone_keyword (sql kw : List Char)
    (hmem : kw ∈ dangerousKeywords)
    (hst : StandaloneIn kw (sql.map Char.toUpper)) :
    ∃ kw', findDangerous sql = some kw' ∧ kw' ∈ dangerousKeywords ∧
      StandaloneIn kw' (sql.map Char.toUpper) ∧
      ((∀ k, k ∈ dangerousKeywords → StandaloneIn k (sql.map Char.toUpper) → k = kw) →
        kw' = kw) := by
  have hsome : (findDangerous sql).isSome := by
    rcases hfd : findDangerous sql with - | kw'
    · exfalso
      have := List.find?_eq_none.mp hfd kw hmem
      exact this ((keywordHit_iff _ _).mpr hst)
    · rfl
  rcases hfd : findDangerous sql with - | kw'
  · rw [hfd] at hsome; simp at hsome
  · refine ⟨kw', rfl, List.mem_of_find?_eq_some hfd, ?_, ?_⟩
    · exact (keywordHit_iff _ _).mp (List.find?_some hfd)
    · intro huniq
      exact huniq kw' (List.mem_of_find?_eq_some hfd)
        ((keywordHit_iff _ _).mp (List.find?_some hfd))

/-- Closed instance of `safety_filter_flags_standalone_keyword`: a query that
contains a standalone DELETE is rejected with DELETE named. -/
theorem safety_filter_flags_standalone_keyword_witness :
    ("DELETE".toList ∈ dangerousKeywords ∧
      StandaloneIn "DELETE".toList ("delete from orders where id = 1".toList.map Char.toUpper)) ∧
    ∃ kw', findDangerous "delete from orders where id = 1".toList = some kw' ∧
      kw' ∈ dangerousKeywords ∧
      StandaloneIn kw' ("delete from orders where id = 1".toList.map Char.toUpper) ∧
      ((∀ k, k ∈ dangerousKeywords →
          StandaloneIn k ("delete from orders where id = 1".toList.map Char.toUpper) → k = "DELETE".toList) →
        kw' = "DELETE".toList) := by
  refine ⟨⟨by decide, Or.inr ⟨" FROM ORDERS WHERE ID = 1".toList.drop 1, by decide⟩⟩, ?_⟩
  exact safety_filter_flags_standalone_keyword _ _ (by decide)
    (Or.inr ⟨" FROM ORDERS WHERE ID = 1".toList.drop 1, by decide⟩)

/-- C9: the space-delimited check is only an approximation. A DELETE occurring
only inside a quoted SQL string literal is still flagged (false positive), and
a query containing DROP with adjacent punctuation and no surrounding spaces
passes the filter (false negative). -/
theorem safety_filter_is_approximate :
    findDangerous "SELECT * FROM orders WHERE note = 'please DELETE this row';".toList =
      some "DELETE".toList ∧
    findDangerous "SELECT name FROM products;DROP;".toList = none := by
  constructor <;> decide

/-! ## SQL extraction in `get_sql_query` (src/app.py lines 174-188)

`re.search(r"<fence>sql\n(.*?)\n<fence>", text, re.DOTALL)` and
`re.search(r"SELECT.*?;", text, re.DOTALL | re.IGNORECASE)` are leftmost
searches with non-greedy bodies: the match starts at the earliest position
where the whole pattern can match, and ends at the earliest possible end.
Both are instances of a generic leftmost pattern search `findSplit f pat`,
which finds the first decomposition `t = pre ++ m ++ suf` with
`m.map f = pat` (`f = id` for the exact fence patterns, `f = Char.toUpper`
for the case-insensitive SELECT). -/

/-- Leftmost pattern search: the first decomposition `t = pre ++ m ++ suf`
with `m.map f = pat`, as `(pre, m, suf)`. -/
def findSplit (f : Char → Char) (pat : List Char) : List Char → Option (List Char × List Char × List Char)
  | [] => none
  | c :: cs =>
    if ((c :: cs).take pat.length).map f = pat then
      some ([], (c :: cs).take pat.length, (c :: cs).drop pat.length)
    else
      match findSplit f pat cs with
      | some (pre, m, suf) => some (c :: pre, m, suf)
      | none => none

theorem findSplit_eq (f : Char → Char) (pat : List Char) :
    ∀ t pre m suf, findSplit f pat t = some (pre, m, suf) →
      t = pre ++ m ++ suf ∧ m.map f = pat := by
  intro t
  induction t with
  | nil => intro pre m suf h; simp [findSplit] at h
  | cons c cs ih =>
    intro pre m suf h
    simp only [findSplit] at h
    split at h
    · rename_i hc
      simp only [Option.some.injEq, Prod.mk.injEq] at h
      obtain ⟨h1, h2, h3⟩ := h
      subst h1; subst h2; subst h3
      exact ⟨by simp [List.take_append_drop], hc⟩
    · rename_i hc
      split at h
      · rename_i p₀ m₀ s₀ hrec
        simp only [Option.some.injEq, Prod.mk.injEq] at h
        obtain ⟨h1, h2, h3⟩ := h
        subst h1; subst h2; subst h3
        obtain ⟨ih1, ih2⟩ := ih p₀ m₀ s₀ hrec
        exact ⟨by simp [ih1], ih2⟩
      · exact absurd h (by simp)

theorem findSplit_eq_none (f : Char → Char) (pat : List Char) (hp : pat ≠ []) :
    ∀ t, findSplit f pat t = none →
      ∀ pre m suf, t = pre ++ m ++ suf → m.map f = pat → False := by
  intro t
  induction t with
  | nil =>
    intro _ pre m suf ht hm
    have h0 : m = [] := by
      rcases List.append_eq_nil.mp ht.symm with ⟨h1, -⟩
      exact (List.append_eq_nil.mp h1).2
    subst h0
    exact hp (by simpa using hm.symm)
  | cons c cs ih =>
    intro h pre m suf ht hm
    simp only [findSplit] at h
    split at h
    · exact absurd h (by simp)
    · rename_i hc
      have hcs : findSplit f pat cs = none := by
        rcases hrec : findSplit f pat cs with - | ⟨p₀, m₀, s₀⟩
        · rfl
        · rw [hrec] at h; simp at h
      cases pre with
      | nil =>
        apply hc
        have hlen : m.length = pat.length := by rw [← hm]; simp
        rw [ht]
        simp only [List.nil_append]
        rw [← hlen, List.take_left]
        exact hm
      | cons p' pre' =>
        injection ht with h1 h2
        exact ih hcs pre' m suf h2 hm

theorem findSplit_min (f : Char → Char) (pat : List Char) :
    ∀ t pre m suf, findSplit f pat t = some (pre, m, suf) →
      ∀ pre' m' suf', t = pre' ++ m' ++ suf' → m'.map f = pat →
        pre.length ≤ pre'.length := by
  intro t
  induction t with
  | nil => intro pre m suf h; simp [findSplit] at h
  | cons c cs ih =>
    intro pre m suf h pre' m' suf' ht hm
    simp only [findSplit] at h
    split at h
    · simp only [Option.some.injEq, Prod.mk.injEq] at h
      obtain ⟨h1, -, -⟩ := h
      subst h1
      simp
    · rename_i hc
      split at h
      · rename_i p₀ m₀ s₀ hrec
        simp only [Option.some.injEq, Prod.mk.injEq] at h
        obtain ⟨h1, h2, h3⟩ := h
        subst h1; subst h2; subst h3
        cases pre' with
        | nil =>
          exfalso
          apply hc
          have hlen : m'.length = pat.length := by rw [← hm]; simp
          rw [ht]
          simp only [List.nil_append]
          rw [← hlen, List.take_left]
          exact hm
        | cons p' pre'' =>
          injection ht with h1' h2'
          have hle := ih p₀ m₀ s₀ hrec pre'' m' suf' h2' hm
          simp only [List.length_cons]
          omega
      · exact absurd h (by simp)

/-- Suffixes of the same list are totally ordered by length. -/
theorem append_right_le (t u v w₁ w₂ : List Char) (h1 : t = u ++ w₁) (h2 : t = v ++ w₂)
    (hl : w₁.length ≤ w₂.length) : ∃ z, w₂ = z ++ w₁ := by
  have h : v ++ w₂ = u ++ w₁ := by rw [← h1, ← h2]
  rcases List.append_eq_append_iff.mp h with ⟨a, -, ha2⟩ | ⟨a, -, ha2⟩
  · exact ⟨a, ha2⟩
  · have hlen : a.length + w₂.length ≤ w₂.length := by
      rw [← List.length_append, ← ha2]
      exact hl
    have ha0 : a = [] := List.length_eq_zero.mp (by omega)
    subst ha0
    exact ⟨[], by simpa using ha2.symm⟩

/-- The non-greedy tail of `SELECT.*?;`: the shortest chunk of the remainder
ending at the first semicolon, inclusive. -/
def upToSemi : List Char → Option (List Char)
  | [] => none
  | c :: cs => if c = ';' then some [';'] else (upToSemi cs).map (fun m => c :: m)

theorem upToSemi_isSome : ∀ cs : List Char, ';' ∈ cs → (upToSemi cs).isSome := by
  intro cs
  induction cs with
  | nil => intro h; simp at h
  | cons c cs ih =>
    intro h
    simp only [upToSemi]
    by_cases hc : c = ';'
    · simp [hc]
    · rw [if_neg hc]
      rcases List.mem_cons.mp h with h1 | h2
      · exact absurd h1.symm hc
      · have hs := ih h2
        rcases hu : upToSemi cs with - | m
        · rw [hu] at hs; simp at hs
        · simp [hu]

theorem upToSemi_eq_some : ∀ cs m : List Char, upToSemi cs = some m →
    ∃ a b, cs = a ++ ';' :: b ∧ m = a ++ [';'] ∧ ';' ∉ a := by
  intro cs
  induction cs with
  | nil => intro m h; simp [upToSemi] at h
  | cons c cs ih =>
    intro m h
    simp only [upToSemi] at h
    by_cases hc : c = ';'
    · rw [if_pos hc] at h
      subst hc
      simp only [Option.some.injEq] at h
      exact ⟨[], cs, by simp, by simp [← h], by simp⟩
    · rw [if_neg hc] at h
      rcases hu : upToSemi cs with - | m₀
      · rw [hu] at h; simp at h
      · rw [hu] at h
        simp only [Option.map_some', Option.some.injEq] at h
        obtain ⟨a, b, h1, h2, h3⟩ := ih m₀ hu
        refine ⟨c :: a, b, by simp [h1], by rw [← h, h2]; rfl, ?_⟩
        intro hmem
        rcases List.mem_cons.mp hmem with h4 | h5
        · exact hc h4.symm
        · exact h3 h5

/-- The opening delimiter required by the fenced-block regex: the sql-tagged
fence followed immediately by a newline. -/
def fenceOpen : List Char := "```sql\n".toList

/-- The closing delimiter required by the fenced-block regex: a newline
immediately followed by the closing fence. -/
def fenceClose : List Char := "\n```".toList

/-- The literal matched case-insensitively by the fallback regex. -/
def selectKw : List Char := "SELECT".toList

/-- The fenced branch `re.search(r"<fence>sql\n(.*?)\n<fence>", ...)`:
group(1) of the leftmost, shortest match. -/
def extractFenced (t : List Char) : Option (List Char) :=
  match findSplit id fenceOpen t with
  | none => none
  | some (_, _, suf) =>
    match findSplit id fenceClose suf with
    | none => none
    | some (mid, _, _) => some mid

/-- The fallback branch `re.search(r"SELECT.*?;", ...)`: group(0) of the
leftmost, shortest match. -/
def extractSelect (t : List Char) : Option (List Char) :=
  match findSplit Char.toUpper selectKw t with
  | none => none
  | some (_, sel, rest) =>
    match upToSemi rest with
    | none => none
    | some m => some (sel ++ m)

/-- Python `str.strip()`: remove leading and trailing whitespace. -/
def pyStrip (s : List Char) : List Char :=
  ((s.dropWhile Char.isWhitespace).reverse.dropWhile Char.isWhitespace).reverse

/-- The extraction logic of `get_sql_query` applied to the raw model response:
fenced branch first (trimmed group(1)), then the SELECT-to-semicolon fallback
(trimmed group(0)), else `None`. -/
def extractSqlFromResponse (t : List Char) : Option (List Char) :=
  match extractFenced t with
  | some mid => some (pyStrip mid)
  | none =>
    match extractSelect t with
    | some m => some (pyStrip m)
    | none => none

/-- The response contains a sql-tagged fenced code block in the sense of the
fenced-branch regex. -/
def ContainsFencedSql (t : List Char) : Prop :=
  ∃ pre mid post, t = pre ++ fenceOpen ++ mid ++ fenceClose ++ post

/-- The response contains a case-insensitive `SELECT` later followed by a
semicolon, i.e. the fallback regex can match. -/
def ContainsSelectSemi (t : List Char) : Prop :=
  ∃ pre sel rest, t = pre ++ sel ++ rest ∧ sel.map Char.toUpper = selectKw ∧ ';' ∈ rest

theorem extractFenced_some (t mid : List Char) (h : extractFenced t = some mid) :
    ∃ pre post, t = pre ++ fenceOpen ++ mid ++ fenceClose ++ post := by
  rcases h1 : findSplit id fenceOpen t with - | ⟨pre, m, suf⟩
  · simp [extractFenced, h1] at h
  · rcases h2 : findSplit id fenceClose suf with - | ⟨mid₀, m₂, post⟩
    · simp [extractFenced, h1, h2] at h
    · have hmid : mid₀ = mid := by simpa [extractFenced, h1, h2] using h
      obtain ⟨ht1, hm1⟩ := findSplit_eq id fenceOpen t pre m suf h1
      obtain ⟨ht2, hm2⟩ := findSplit_eq id fenceClose suf mid₀ m₂ post h2
      rw [List.map_id] at hm1 hm2
      subst hm1; subst hm2; subst hmid
      refine ⟨pre, post, ?_⟩
      rw [ht1, ht2]
      simp [List.append_assoc]

theorem extractFenced_isSome (t : List Char) (h : ContainsFencedSql t) :
    (extractFenced t).isSome := by
  obtain ⟨pre, mid, post, ht⟩ := h
  have h1 : findSplit id fenceOpen t ≠ none := by
    intro hn
    exact findSplit_eq_none id fenceOpen (by decide) t hn pre fenceOpen
      (mid ++ fenceClose ++ post) (by rw [ht]; simp [List.append_assoc]) (by simp)
  rcases ho : findSplit id fenceOpen t with - | ⟨pre₁, m₁, suf₁⟩
  · exact absurd ho h1
  · obtain ⟨ht1, hm1⟩ := findSplit_eq id fenceOpen t pre₁ m₁ suf₁ ho
    rw [List.map_id] at hm1
    subst hm1
    have hmin : pre₁.length ≤ pre.length :=
      findSplit_min id fenceOpen t pre₁ fenceOpen suf₁ ho pre fenceOpen
        (mid ++ fenceClose ++ post) (by rw [ht]; simp [List.append_assoc]) (by simp)
    have hlen : (mid ++ fenceClose ++ post).length ≤ suf₁.length := by
      have e1 := congrArg List.length ht1
      have e2 := congrArg List.length ht
      simp only [List.length_append] at e1 e2
      simp only [List.length_append]
      omega
    obtain ⟨z, hz⟩ := append_right_le t (pre ++ fenceOpen) (pre₁ ++ fenceOpen)
      (mid ++ fenceClose ++ post) suf₁ (by rw [ht]; simp [List.append_assoc])
      (by rw [ht1]) hlen
    have h2 : findSplit id fenceClose suf₁ ≠ none := by
      intro hn
      exact findSplit_eq_none id fenceClose (by decide) suf₁ hn (z ++ mid) fenceClose post
        (by rw [hz]; simp [List.append_assoc]) (by simp)
    rcases hc2 : findSplit id fenceClose suf₁ with - | ⟨a, b, c2⟩
    · exact absurd hc2 h2
    · simp [extractFenced, ho, hc2]

theorem extractFenced_eq_none (t : List Char) (h : ¬ ContainsFencedSql t) :
    extractFenced t = none := by
  rcases hf : extractFenced t with - | mid
  · rfl
  · obtain ⟨pre, post, ht⟩ := extractFenced_some t mid hf
    exact absurd ⟨pre, mid, post, ht⟩ h

theorem extractSelect_some (t m : List Char) (h : extractSelect t = some m) :
    ∃ pre sel a b, t = pre ++ sel ++ (a ++ ';' :: b) ∧ sel.map Char.toUpper = selectKw ∧
      ';' ∉ a ∧ m = sel ++ (a ++ [';']) := by
  rcases h1 : findSplit Char.toUpper selectKw t with - | ⟨pre, sel, rest⟩
  · simp [extractSelect, h1] at h
  · rcases h2 : upToSemi rest with - | m₀
    · simp [extractSelect, h1, h2] at h
    · have hm : sel ++ m₀ = m := by simpa [extractSelect, h1, h2] using h
      obtain ⟨ht1, hsel⟩ := findSplit_eq Char.toUpper selectKw t pre sel rest h1
      obtain ⟨a, b, hr, hm0, hna⟩ := upToSemi_eq_some rest m₀ h2
      exact ⟨pre, sel, a, b, by rw [ht1, hr], hsel, hna, by rw [← hm, hm0]⟩

theorem extractSelect_isSome (t : List Char) (h : ContainsSelectSemi t) :
    (extractSelect t).isSome := by
  obtain ⟨pre, sel, rest, ht, hsel, hsemi⟩ := h
  have hne : findSplit Char.toUpper selectKw t ≠ none := by
    intro hn
    exact findSplit_eq_none Char.toUpper selectKw (by decide) t hn pre sel rest ht hsel
  rcases h1 : findSplit Char.toUpper selectKw t with - | ⟨pre₁, sel₁, rest₁⟩
  · exact absurd h1 hne
  · obtain ⟨ht1, hsel₁⟩ := findSplit_eq Char.toUpper selectKw t pre₁ sel₁ rest₁ h1
    have hmin : pre₁.length ≤ pre.length :=
      findSplit_min Char.toUpper selectKw t pre₁ sel₁ rest₁ h1 pre sel rest ht hsel
    have hlen : rest.length ≤ rest₁.length := by
      have e1 := congrArg List.length ht1
      have e2 := congrArg List.length ht
      have lsel : sel.length = selectKw.length := by rw [← hsel]; simp
      have lsel₁ : sel₁.length = selectKw.length := by rw [← hsel₁]; simp
      simp only [List.length_append] at e1 e2
      omega
    obtain ⟨z, hz⟩ := append_right_le t (pre ++ sel) (pre₁ ++ sel₁) rest rest₁
      (by rw [ht]) (by rw [ht1]) hlen
    have hsemi₁ : ';' ∈ rest₁ := by
      rw [hz]
      exact List.mem_append.mpr (Or.inr hsemi)
    have hsome := upToSemi_isSome rest₁ hsemi₁
    rcases h2 : upToSemi rest₁ with - | m₀
    · rw [h2] at hsome; simp at hsome
    · simp [extractSelect, h1, h2]

theorem extractSelect_eq_none (t : List Char) (h : ¬ ContainsSelectSemi t) :
    extractSelect t = none := by
  rcases he : extractSelect t with - | m
  · rfl
  · obtain ⟨pre, sel, a, b, ht, hup, hna, hm⟩ := extractSelect_some t m he
    exact absurd ⟨pre, sel, a ++ ';' :: b, ht, hup, by simp⟩ h

theorem extractSqlFromResponse_eq_none (t : List Char)
    (h1 : ¬ ContainsFencedSql t) (h2 : ¬ ContainsSelectSemi t) :
    extractSqlFromResponse t = none := by
  simp [extractSqlFromResponse, extractFenced_eq_none t h1, extractSelect_eq_none t h2]

/-- C3: extraction from a model response. If the response contains a
sql-tagged fenced block, the result is the trimmed fenced content; otherwise,
if it contains a case-insensitive SELECT followed by a semicolon, the result
is the trimmed substring from that SELECT up to and including the first
semicolon after it; otherwise the result is `none`. -/
theorem extraction_behavior (t : List Char) :
    (ContainsFencedSql t →
      ∃ mid, (∃ pre post, t = pre ++ fenceOpen ++ mid ++ fenceClose ++ post) ∧
        extractSqlFromResponse t = some (pyStrip mid)) ∧
    (¬ ContainsFencedSql t → ContainsSelectSemi t →
      ∃ sel a, (∃ pre b, t = pre ++ sel ++ (a ++ ';' :: b)) ∧
        sel.map Char.toUpper = selectKw ∧ ';' ∉ a ∧
        extractSqlFromResponse t = some (pyStrip (sel ++ (a ++ [';'])))) ∧
    (¬ ContainsFencedSql t → ¬ ContainsSelectSemi t →
      extractSqlFromResponse t = none) := by
  refine ⟨?_, ?_, extractSqlFromResponse_eq_none t⟩
  · intro h
    have hs := extractFenced_isSome t h
    rcases hf : extractFenced t with - | mid
    · rw [hf] at hs; simp at hs
    · obtain ⟨pre, post, ht⟩ := extractFenced_some t mid hf
      exact ⟨mid, ⟨pre, post, ht⟩, by simp [extractSqlFromResponse, hf]⟩
  · intro hnf hsel
    have hfn : extractFenced t = none := extractFenced_eq_none t hnf
    have hs := extractSelect_isSome t hsel
    rcases he : extractSelect t with - | m
    · rw [he] at hs; simp at hs
    · obtain ⟨pre, sel, a, b, ht, hup, hna, hm⟩ := extractSelect_some t m he
      exact ⟨sel, a, ⟨pre, b, ht⟩, hup, hna,
        by rw [← hm]; simp [extractSqlFromResponse, hfn, he]⟩

/-- Closed instance of `extraction_behavior`: a response with a fenced sql
block yields the trimmed fenced content. -/
theorem extraction_behavior_witness :
    ∃ mid, (∃ pre post, "hello ```sql\n SELECT 1; \n``` bye".toList =
        pre ++ fenceOpen ++ mid ++ fenceClose ++ post) ∧
      extractSqlFromResponse "hello ```sql\n SELECT 1; \n``` bye".toList =
        some (pyStrip mid) :=
  (extraction_behavior "hello ```sql\n SELECT 1; \n``` bye".toList).1
    ⟨"hello ".toList, " SELECT 1; ".toList, " bye".toList, by decide⟩

/-- C10: the fenced branch only matches when the opening fence is immediately
followed by a newline and the closing fence immediately preceded by one; a
single-line fenced response is handled by the SELECT-to-semicolon fallback. -/
theorem fenced_branch_requires_newlines :
    (∀ t c, extractFenced t = some c →
      ∃ pre post, t = pre ++ fenceOpen ++ c ++ fenceClose ++ post) ∧
    extractFenced "```sql SELECT 1;```".toList = none ∧
    extractSelect "```sql SELECT 1;```".toList = some "SELECT 1;".toList ∧
    extractSqlFromResponse "```sql SELECT 1;```".toList = some "SELECT 1;".toList := by
  refine ⟨extractFenced_some, ?_, ?_, ?_⟩ <;> decide

/-- Closed instance of `fenced_branch_requires_newlines`: the decomposition
extracted from a well-formed fenced response exhibits both newlines. -/
theorem fenced_branch_requires_newlines_witness :
    ∃ pre post, "```sql\nSELECT 2;\n```".toList =
      pre ++ fenceOpen ++ "SELECT 2;".toList ++ fenceClose ++ post :=
  fenced_branch_requires_newlines.1 "```sql\nSELECT 2;\n```".toList
    "SELECT 2;".toList (by decide)

/-! ## Execution, summarization and the chat handler -/

/-- The tabular result of running a query (`pandas` DataFrame): a list of rows,
each row a list of cell values rendered as strings. `result_df.empty` is
`rows = []`. -/
structure QueryResult where
  rows : List (List (List Char))
  deriving DecidableEq

/-- Observable events of one request: model invocations, the security check,
database contact, Streamlit displays and error messages, in order. -/
inductive Ev where
  /-- The generation model (`model.generate_content` in `get_sql_query`) is invoked. -/
  | genCall : Ev
  /-- The generated SQL is displayed (`st.code`). -/
  | showSql : List Char → Ev
  /-- The security check at the start of `execute_sql_query` runs on the query. -/
  | filterCheck : List Char → Ev
  /-- `st.error` blocking message naming the dangerous keyword. -/
  | errBlocked : List Char → Ev
  /-- A database engine/connection is created and the query is sent to the store. -/
  | dbQuery : List Char → Ev
  /-- `st.error` shown for a database exception. -/
  | errExec : List Char → Ev
  /-- The raw result DataFrame is displayed (`st.dataframe`). -/
  | showRaw : QueryResult → Ev
  /-- The summarization model (`get_natural_language_response`) is invoked. -/
  | sumCall : Ev
  /-- `st.error` shown for a summarization exception. -/
  | errSum : Ev
  /-- The final response is rendered with `st.markdown`. -/
  | showFinal : List Char → Ev
  /-- The final response is rendered with `st.error` (generation failure). -/
  | errFinal : List Char → Ev
  deriving DecidableEq

/-- `execute_sql_query` (src/app.py lines 190-208): run the security check
first; on a keyword hit display the blocking error and return `None` without
touching the store; otherwise open a connection and run the query, returning
the DataFrame, or display the error and return `None` when the store raises.
The store is the abstract parameter `db`; the returned trace records the
events in order. -/
def execute_sql_query (db : List Char → Except (List Char) QueryResult)
    (sql : List Char) : Option QueryResult × List Ev :=
  match findDangerous sql with
  | some kw => (none, [Ev.filterCheck sql, Ev.errBlocked kw])
  | none =>
    match db sql with
    | Except.ok r => (some r, [Ev.filterCheck sql, Ev.dbQuery sql])
    | Except.error e => (none, [Ev.filterCheck sql, Ev.dbQuery sql, Ev.errExec e])

/-- C2: when the security check matches a mutating keyword, `execute_sql_query`
returns the rejection naming that keyword, the store is never contacted (no
`dbQuery` event), and the outcome is independent of the database. -/
theorem rejection_precedes_execution
    (db : List Char → Except (List Char) QueryResult) (sql kw : List Char)
    (h : findDangerous sql = some kw) :
    execute_sql_query db sql = (none, [Ev.filterCheck sql, Ev.errBlocked kw]) ∧
    (∀ q, Ev.dbQuery q ∉ (execute_sql_query db sql).2) ∧
    (∀ db', execute_sql_query db' sql = execute_sql_query db sql) := by
  have hx : ∀ db' : List Char → Except (List Char) QueryResult,
      execute_sql_query db' sql = (none, [Ev.filterCheck sql, Ev.errBlocked kw]) := by
    intro db'
    simp [execute_sql_query, h]
  refine ⟨hx db, ?_, ?_⟩
  · intro q
    rw [hx db]
    simp
  · intro db'
    rw [hx db, hx db']

/-- Closed instance of `rejection_precedes_execution` on the statement the
model would emit for "Delete all orders", with a store that would answer any
query: the rejection names DELETE and the trace contains no database contact. -/
theorem rejection_precedes_execution_witness :
    findDangerous "DELETE FROM orders;".toList = some "DELETE".toList ∧
    (execute_sql_query (fun q => Except.ok ⟨[[q]]⟩) "DELETE FROM orders;".toList =
        (none, [Ev.filterCheck "DELETE FROM orders;".toList,
                Ev.errBlocked "DELETE".toList]) ∧
      (∀ q, Ev.dbQuery q ∉
        (execute_sql_query (fun q => Except.ok ⟨[[q]]⟩) "DELETE FROM orders;".toList).2) ∧
      (∀ db', execute_sql_query db' "DELETE FROM orders;".toList =
        execute_sql_query (fun q => Except.ok ⟨[[q]]⟩) "DELETE FROM orders;".toList)) :=
  ⟨by decide, rejection_precedes_execution _ _ _ (by decide)⟩

/-- C8: a query free of standalone mutating keywords passes the security check
and execution proceeds: the store is contacted with exactly that query. -/
theorem safe_query_executes
    (db : List Char → Except (List Char) QueryResult) (sql : List Char)
    (h : ∀ kw, kw ∈ dangerousKeywords → ¬ StandaloneIn kw (sql.map Char.toUpper)) :
    findDangerous sql = none ∧
    Ev.dbQuery sql ∈ (execute_sql_query db sql).2 ∧
    (execute_sql_query db sql).1 = (db sql).toOption := by
  have hfd : findDangerous sql = none := by
    apply List.find?_eq_none.mpr
    intro kw hkw
    simp only [Bool.not_eq_true]
    rcases hb : keywordHit (sql.map Char.toUpper) kw with - | -
    · rfl
    · exact absurd ((keywordHit_iff _ _).mp hb) (h kw hkw)
  refine ⟨hfd, ?_, ?_⟩ <;>
    · rcases hdb : db sql with e | r <;> simp [execute_sql_query, hfd, hdb, Except.toOption]

/-- Closed instance of `safe_query_executes`: a query whose only CREATE occurs
inside the identifier `created_at` is not rejected and reaches the store. -/
theorem safe_query_executes_witness :
    (∀ kw, kw ∈ dangerousKeywords →
      ¬ StandaloneIn kw ("SELECT created_at FROM orders;".toList.map Char.toUpper)) ∧
    (findDangerous "SELECT created_at FROM orders;".toList = none ∧
      Ev.dbQuery "SELECT created_at FROM orders;".toList ∈
        (execute_sql_query (fun _ => Except.ok ⟨[]⟩) "SELECT created_at FROM orders;".toList).2 ∧
      (execute_sql_query (fun _ => Except.ok ⟨[]⟩) "SELECT created_at FROM orders;".toList).1 =
        ((fun _ => Except.ok ⟨[]⟩ :
            List Char → Except (List Char) QueryResult) "SELECT created_at FROM orders;".toList).toOption) := by
  have h : ∀ kw, kw ∈ dangerousKeywords →
      ¬ StandaloneIn kw ("SELECT created_at FROM orders;".toList.map Char.toUpper) := by
    intro kw hkw hst
    have hb : keywordHit ("SELECT created_at FROM orders;".toList.map Char.toUpper) kw = true :=
      (keywordHit_iff _ _).mpr hst
    have hn : findDangerous "SELECT created_at FROM orders;".toList = none := by decide
    exact absurd hb (by simpa using List.find?_eq_none.mp hn kw hkw)
  exact ⟨h, safe_query_executes _ _ h⟩

/-! ## The chat handler (src/app.py lines 332-355) -/

/-- `get_sql_query` (src/app.py lines 146-188): invoke the generation model
(the abstract `genResponse`; `none` models the call raising, caught by the
surrounding `try`/`except` which returns `None`) and extract the SQL. -/
def get_sql_query (genResponse : Option (List Char)) : Option (List Char) × List Ev :=
  match genResponse with
  | some t => (extractSqlFromResponse t, [Ev.genCall])
  | none => (none, [Ev.genCall])

/-- The apology returned by `get_natural_language_response` when the
summarization model call raises. -/
def apologyMsg : List Char :=
  "Sorry, I encountered an issue while summarizing the data.".toList

/-- `get_natural_language_response` (src/app.py lines 210-238): invoke the
summarization model; on success return its text, on an exception display the
error and return the fixed apology. -/
def get_natural_language_response (sumResponse : Option (List Char)) :
    List Char × List Ev :=
  match sumResponse with
  | some t => (t, [Ev.sumCall])
  | none => (apologyMsg, [Ev.sumCall, Ev.errSum])

/-- The abstract environment of one request: the generation model response,
the database, and the summarization model response. -/
structure Ctx where
  genResponse : Option (List Char)
  db : List Char → Except (List Char) QueryResult
  sumResponse : Option (List Char)

def userRole : List Char := "user".toList

def assistantRole : List Char := "assistant".toList

/-- The message shown (and recorded) when no SQL query could be generated. -/
def rephraseMsg : List Char :=
  "I couldn't generate an SQL query for your question. Please try rephrasing it.".toList

/-- The fixed message used when the query returns zero rows. -/
def noResultsMsg : List Char :=
  "The query returned no results. Please check your question or the data.".toList

/-- The chat-input handler (src/app.py lines 332-355): returns the
`(role, content)` entries appended to `st.session_state.messages` for this
question, in order, and the event trace. Mirrors the source: the user entry
is appended first; `if sql_query:` is Python truthiness (`None` and the empty
string both fail it); when `execute_sql_query` returns `None` (rejection or
database error) nothing further happens — in particular no assistant entry is
appended; an empty result short-circuits to the fixed no-results message;
otherwise the summarizer's text is shown and recorded. -/
def chatHandler (ctx : Ctx) (p : List Char) : List (List Char × List Char) × List Ev :=
  match (get_sql_query ctx.genResponse).1 with
  | some q =>
    if q = [] then
      ([(userRole, p), (assistantRole, rephraseMsg)],
       (get_sql_query ctx.genResponse).2 ++ [Ev.errFinal rephraseMsg])
    else
      match (execute_sql_query ctx.db q).1 with
      | some r =>
        if r.rows = [] then
          ([(userRole, p), (assistantRole, noResultsMsg)],
           (get_sql_query ctx.genResponse).2 ++ [Ev.showSql q] ++
             (execute_sql_query ctx.db q).2 ++ [Ev.showRaw r, Ev.showFinal noResultsMsg])
        else
          ([(userRole, p), (assistantRole, (get_natural_language_response ctx.sumResponse).1)],
           (get_sql_query ctx.genResponse).2 ++ [Ev.showSql q] ++
             (execute_sql_query ctx.db q).2 ++ [Ev.showRaw r] ++
             (get_natural_language_response ctx.sumResponse).2 ++
             [Ev.showFinal (get_natural_language_response ctx.sumResponse).1])
      | none =>
        ([(userRole, p)],
         (get_sql_query ctx.genResponse).2 ++ [Ev.showSql q] ++ (execute_sql_query ctx.db q).2)
  | none =>
    ([(userRole, p), (assistantRole, rephraseMsg)],
     (get_sql_query ctx.genResponse).2 ++ [Ev.errFinal rephraseMsg])

theorem get_sql_query_trace (g : Option (List Char)) :
    (get_sql_query g).2 = [Ev.genCall] := by
  cases g <;> rfl

theorem execute_trace_no_sum (db : List Char → Except (List Char) QueryResult)
    (q : List Char) : Ev.sumCall ∉ (execute_sql_query db q).2 := by
  unfold execute_sql_query
  rcases findDangerous q with - | kw
  · rcases db q with e | r <;> simp
  · simp

/-- C4: on an empty result the handler returns the fixed no-results message,
records it as the assistant entry, and never invokes the summarizer. -/
theorem empty_result_skips_summarizer (ctx : Ctx) (p q : List Char) (r : QueryResult)
    (hq : (get_sql_query ctx.genResponse).1 = some q) (hne : q ≠ [])
    (hr : (execute_sql_query ctx.db q).1 = some r) (hrows : r.rows = []) :
    (chatHandler ctx p).1 = [(userRole, p), (assistantRole, noResultsMsg)] ∧
    Ev.sumCall ∉ (chatHandler ctx p).2 ∧
    Ev.showFinal noResultsMsg ∈ (chatHandler ctx p).2 := by
  have hns := execute_trace_no_sum ctx.db q
  refine ⟨?_, ?_, ?_⟩ <;>
    simp [chatHandler, hq, hne, hr, hrows, get_sql_query_trace, hns]

/-- Environment for the closed instance of `empty_result_skips_summarizer`:
the model emits a fenced SELECT and the store returns zero rows. -/
def ctxEmptyResult : Ctx :=
  ⟨some "```sql\nSELECT 4;\n```".toList, fun _ => Except.ok ⟨[]⟩, some "sum".toList⟩

/-- Closed instance of `empty_result_skips_summarizer`. -/
theorem empty_result_skips_summarizer_witness :
    (chatHandler ctxEmptyResult "q2".toList).1 =
      [(userRole, "q2".toList), (assistantRole, noResultsMsg)] ∧
    Ev.sumCall ∉ (chatHandler ctxEmptyResult "q2".toList).2 ∧
    Ev.showFinal noResultsMsg ∈ (chatHandler ctxEmptyResult "q2".toList).2 :=
  empty_result_skips_summarizer ctxEmptyResult "q2".toList "SELECT 4;".toList ⟨[]⟩
    (by decide) (by decide) (by decide) rfl

/-- C5: when the generation model raises, or its response contains neither a
fenced sql block nor a SELECT-to-semicolon pattern, the handler terminates
with the rephrase message (shown and recorded), and neither the safety filter
nor the executor is ever invoked. -/
theorem generation_failure_terminates (ctx : Ctx) (p : List Char)
    (h : ctx.genResponse = none ∨ ∃ t, ctx.genResponse = some t ∧
      ¬ ContainsFencedSql t ∧ ¬ ContainsSelectSemi t) :
    chatHandler ctx p = ([(userRole, p), (assistantRole, rephraseMsg)],
      [Ev.genCall, Ev.errFinal rephraseMsg]) ∧
    (∀ q, Ev.filterCheck q ∉ (chatHandler ctx p).2) ∧
    (∀ q, Ev.dbQuery q ∉ (chatHandler ctx p).2) := by
  have hq : (get_sql_query ctx.genResponse).1 = none := by
    rcases h with h0 | ⟨t, ht, hnf, hns⟩
    · rw [h0]; rfl
    · rw [ht]
      exact extractSqlFromResponse_eq_none t hnf hns
  have hmain : chatHandler ctx p = ([(userRole, p), (assistantRole, rephraseMsg)],
      [Ev.genCall, Ev.errFinal rephraseMsg]) := by
    simp [chatHandler, hq, get_sql_query_trace]
  refine ⟨hmain, ?_, ?_⟩ <;> intro q <;> rw [hmain] <;> simp

/-- Environment for the closed instance of `generation_failure_terminates`:
the generation model call raises. -/
def ctxGenFail : Ctx := ⟨none, fun _ => Except.error [], none⟩

/-- Closed instance of `generation_failure_terminates`. -/
theorem generation_failure_terminates_witness :
    chatHandler ctxGenFail "q3".toList =
      ([(userRole, "q3".toList), (assistantRole, rephraseMsg)],
       [Ev.genCall, Ev.errFinal rephraseMsg]) :=
  (generation_failure_terminates ctxGenFail "q3".toList (Or.inl rfl)).1

/-- Environment on which C6 fails: the model emits a fenced DELETE statement,
so the filter rejects it and the handler appends no assistant entry. -/
def ctxRejected : Ctx :=
  ⟨some "```sql\nDELETE FROM orders;\n```".toList, fun _ => Except.error [], none⟩

/-- C6 counterexample: on a rejected query the session history receives only
the user entry — no assistant entry is appended, so the history does not grow
by a (user, assistant) pair for this question. -/
theorem history_pair_counterexample :
    (chatHandler ctxRejected "Delete all orders".toList).1 =
      [(userRole, "Delete all orders".toList)] := by
  decide

/-- C6 as amended, characterized forward over every terminal state. When
generation fails (no query, or the falsy empty string), the history gains the
(user, assistant) pair recording the rendered rephrase message. When the
query executes (Done, including the empty-result case), the history gains the
(user, assistant) pair recording the one rendered final response. But
whenever the generated query is truthy and `execute_sql_query` returns `None`
(safety rejection or database error), only the user entry is appended: an
error display (blocked keyword or execution error) is produced and no final
response is rendered at all. -/
theorem history_growth (ctx : Ctx) (p : List Char) :
    (((get_sql_query ctx.genResponse).1 = none ∨
        (get_sql_query ctx.genResponse).1 = some []) →
      (chatHandler ctx p).1 = [(userRole, p), (assistantRole, rephraseMsg)] ∧
      Ev.errFinal rephraseMsg ∈ (chatHandler ctx p).2) ∧
    (∀ q r, (get_sql_query ctx.genResponse).1 = some q → q ≠ [] →
        (execute_sql_query ctx.db q).1 = some r →
      ∃ m, (chatHandler ctx p).1 = [(userRole, p), (assistantRole, m)] ∧
        Ev.showFinal m ∈ (chatHandler ctx p).2) ∧
    (∀ q, (get_sql_query ctx.genResponse).1 = some q → q ≠ [] →
        (execute_sql_query ctx.db q).1 = none →
      (chatHandler ctx p).1 = [(userRole, p)] ∧
      ((∃ kw, Ev.errBlocked kw ∈ (chatHandler ctx p).2) ∨
        (∃ e, Ev.errExec e ∈ (chatHandler ctx p).2)) ∧
      (∀ m, Ev.showFinal m ∉ (chatHandler ctx p).2) ∧
      (∀ m, Ev.errFinal m ∉ (chatHandler ctx p).2)) := by
  refine ⟨?_, ?_, ?_⟩
  · rintro (hq | hq) <;>
      exact ⟨by simp [chatHandler, hq], by simp [chatHandler, hq, get_sql_query_trace]⟩
  · intro q r hq hne hr
    by_cases hrows : r.rows = []
    · exact ⟨noResultsMsg, by simp [chatHandler, hq, hne, hr, hrows],
        by simp [chatHandler, hq, hne, hr, hrows]⟩
    · exact ⟨(get_natural_language_response ctx.sumResponse).1,
        by simp [chatHandler, hq, hne, hr, hrows],
        by simp [chatHandler, hq, hne, hr, hrows]⟩
  · intro q hq hne hr
    rcases hfd : findDangerous q with - | kw
    · rcases hdb : ctx.db q with e | r
      · have hex : execute_sql_query ctx.db q =
            (none, [Ev.filterCheck q, Ev.dbQuery q, Ev.errExec e]) := by
          simp [execute_sql_query, hfd, hdb]
        refine ⟨?_, Or.inr ⟨e, ?_⟩, ?_, ?_⟩ <;>
          simp [chatHandler, hq, hne, hex, get_sql_query_trace]
      · exfalso
        have hok : (execute_sql_query ctx.db q).1 = some r := by
          simp [execute_sql_query, hfd, hdb]
        rw [hok] at hr
        simp at hr
    · have hex : execute_sql_query ctx.db q =
          (none, [Ev.filterCheck q, Ev.errBlocked kw]) := by
        simp [execute_sql_query, hfd]
      refine ⟨?_, Or.inl ⟨kw, ?_⟩, ?_, ?_⟩ <;>
        simp [chatHandler, hq, hne, hex, get_sql_query_trace]

/-- Closed instance of `history_growth` on the rejected-query environment:
only the user entry is appended, a blocked-keyword error is displayed, and no
final response is rendered. -/
theorem history_growth_witness :
    (chatHandler ctxRejected "Delete all orders".toList).1 =
      [(userRole, "Delete all orders".toList)] ∧
    ((∃ kw, Ev.errBlocked kw ∈ (chatHandler ctxRejected "Delete all orders".toList).2) ∨
      (∃ e, Ev.errExec e ∈ (chatHandler ctxRejected "Delete all orders".toList).2)) ∧
    (∀ m, Ev.showFinal m ∉ (chatHandler ctxRejected "Delete all orders".toList).2) ∧
    (∀ m, Ev.errFinal m ∉ (chatHandler ctxRejected "Delete all orders".toList).2) :=
  (history_growth ctxRejected "Delete all orders".toList).2.2
    "DELETE FROM orders;".toList (by decide) (by decide) (by decide)

/-- C7: when the summarization model call raises, the user-facing response is
the fixed apology (shown and recorded as the assistant entry), the
summarization error is surfaced, and the raw query result remains displayed. -/
theorem summarization_failure_apology (ctx : Ctx) (p q : List Char) (r : QueryResult)
    (hsum : ctx.sumResponse = none)
    (hq : (get_sql_query ctx.genResponse).1 = some q) (hne : q ≠ [])
    (hr : (execute_sql_query ctx.db q).1 = some r) (hrows : r.rows ≠ []) :
    (chatHandler ctx p).1 = [(userRole, p), (assistantRole, apologyMsg)] ∧
    Ev.errSum ∈ (chatHandler ctx p).2 ∧
    Ev.showRaw r ∈ (chatHandler ctx p).2 ∧
    Ev.showFinal apologyMsg ∈ (chatHandler ctx p).2 := by
  have h1 : get_natural_language_response ctx.sumResponse =
      (apologyMsg, [Ev.sumCall, Ev.errSum]) := by
    rw [hsum]; rfl
  refine ⟨?_, ?_, ?_, ?_⟩ <;> simp [chatHandler, hq, hne, hr, hrows, h1]

/-- Environment for the closed instance of `summarization_failure_apology`:
a successful query with one row, and a summarization model that raises. -/
def ctxSumFail : Ctx :=
  ⟨some "```sql\nSELECT 3;\n```".toList, fun _ => Except.ok ⟨[["3".toList]]⟩, none⟩

/-- Closed instance of `summarization_failure_apology`. -/
theorem summarization_failure_apology_witness :
    (chatHandler ctxSumFail "q4".toList).1 =
      [(userRole, "q4".toList), (assistantRole, apologyMsg)] ∧
    Ev.errSum ∈ (chatHandler ctxSumFail "q4".toList).2 ∧
    Ev.showRaw ⟨[["3".toList]]⟩ ∈ (chatHandler ctxSumFail "q4".toList).2 ∧
    Ev.showFinal apologyMsg ∈ (chatHandler ctxSumFail "q4".toList).2 :=
  summarization_failure_apology ctxSumFail "q4".toList "SELECT 3;".toList ⟨[["3".toList]]⟩
    rfl (by decide) (by decide) (by decide) (by decide)

end GemAI
